import Mathlib

/-
Verification development for `src/blockchainRequests.js`.

The file shallowly embeds the three components the design document
describes — the allocation engine (`processNfts`, source lines 817-861),
the cross-referenced enumerator (`getWalletNfts`, lines 630-681, and
`getTotalWalletNfts`, lines 686-742), and the retrying call helper
(`exponentialBackoff`, lines 1026-1045) — together with the numeric
conversions they use.

Numbers: ethers `BigNumber` values are arbitrary-precision integers and
are embedded as `ℤ`.  JavaScript numbers are IEEE binary64 values; every
binary64 value is a rational, so they are embedded as `ℚ`, and the places
where the source re-enters the floating-point world
(`parseFloat(ethers.utils.formatEther(bn))`) are embedded by an explicit
round-to-nearest-binary64 function on `ℚ`.
-/

/-- Round a rational to the nearest integer, ties to even — the rounding
used by `parseFloat` (IEEE 754 round-to-nearest-even) at the mantissa. -/
def roundTiesEven (q : ℚ) : ℤ :=
  let f := ⌊q⌋
  let r := q - (f : ℚ)
  if r < 1 / 2 then f
  else if 1 / 2 < r then f + 1
  else if f % 2 = 0 then f else f + 1

/-- Fueled binary logarithm on `ℕ` (floor of log2; `log2F fuel n` is exact
whenever `n < 2 ^ fuel`). -/
def log2F : ℕ → ℕ → ℕ
  | 0, _ => 0
  | fuel + 1, n => if 2 ≤ n then log2F fuel (n / 2) + 1 else 0

/-- Floor of the base-2 logarithm of a natural number.  Fuel 256 is exact
for every value below `2 ^ 256`, which covers all quantities arising in
this development. -/
def natLog2 (n : ℕ) : ℕ := log2F 256 n

/-- Floor of the base-2 logarithm of a positive rational. -/
def qlog2 (q : ℚ) : ℤ :=
  let a := q.num.toNat
  let b := q.den
  if b ≤ a then (natLog2 (a / b) : ℤ)
  else -(((natLog2 ((b - 1) / a)) + 1 : ℕ) : ℤ)

/-- Round a non-negative rational to the nearest IEEE binary64 value
(round to nearest, ties to even), as an exact rational.  This models the
value produced by JavaScript `parseFloat` of an exact decimal string.
Normal-range model: every quantity this development feeds in lies far
inside the normal binary64 range (no subnormals, no overflow).  Inputs
`≤ 0` are mapped to `0`; the source only round-trips non-negative
remainders. -/
def roundToDouble (q : ℚ) : ℚ :=
  if q ≤ 0 then 0
  else
    let e : ℤ := qlog2 q - 52
    ((roundTiesEven (q / 2 ^ e) : ℚ)) * 2 ^ e

/-- Wei value of a JavaScript number `x`: models
`ethers.utils.parseEther(x.toFixed(18))` (source lines 825, 836, 891).
`toFixed(18)` renders the exact value of the binary64 number rounded to
18 fractional digits, ties away from zero toward the larger integer, and
`parseEther` of an 18-decimal string is the exact integer of smallest
units: together `⌊x·10^18 + 1/2⌋`. -/
def toWei (x : ℚ) : ℤ := ⌊x * 10 ^ 18 + 1 / 2⌋

/-- The binary64 value of the JavaScript literal `1e-18` (line 832). -/
def oneE18 : ℚ := roundToDouble (1 / 10 ^ 18)

/-- The binary64 value a caller passes for a fee/credit of `n` wei (the
number `n * 1e-18` in ether units). -/
def dWei (n : ℕ) : ℚ := roundToDouble ((n : ℚ) / 10 ^ 18)

/-- Credit-eligible fee of one NFT in wei:
`nft.fee < 1e-18 ? BigNumber.from("0") : nftFeeWei` (source lines 831-832). -/
def eligibleFeeWei (fee : ℚ) : ℤ := if fee < oneE18 then 0 else toWei fee

/-- The float the remaining credit becomes between loop iterations:
`parseFloat(ethers.utils.formatEther(totalCreditUsedBigNumber))` (source
lines 849-851).  `formatEther` renders the exact decimal `r / 10^18`, and
`parseFloat` rounds it to the nearest binary64 value. -/
def creditRoundTrip (r : ℤ) : ℚ := roundToDouble ((r : ℚ) / 10 ^ 18)

/-- One NFT as consumed by the allocation engine: an address, a token id
and the fee as the caller's JavaScript number (ether units). -/
structure Nft where
  address : String
  tokenId : ℕ
  fee : ℚ
deriving DecidableEq

/-- Result of `processNfts` (source lines 854-860).  `totalFee` and the
`values` entries are hex strings of `BigNumber` wei amounts in the source
(`hexStripZeros(·.toHexString())`); the hex rendering is injective on the
non-negative amounts arising here, so they are embedded as the integers
themselves. -/
structure AllocationResult where
  totalFee : ℤ
  nftAddresses : List String
  tokenIds : List ℕ
  values : List ℤ
  creditUsed : List ℤ
deriving DecidableEq

/-- Credit consumed for one NFT (source lines 839-846): the full eligible
fee when the remaining credit covers it, otherwise all remaining credit. -/
def usedCredit (fee tcu : ℚ) : ℤ :=
  if eligibleFeeWei fee ≤ toWei tcu then eligibleFeeWei fee else toWei tcu

/-- Remaining credit (wei `BigNumber`) after one NFT (source lines
839-846): `totalCreditUsedBigNumber - nftFeeBigNumber` in the first
branch, `BigNumber.from("0")` in the second. -/
def remCredit (fee tcu : ℚ) : ℤ :=
  if eligibleFeeWei fee ≤ toWei tcu then toWei tcu - eligibleFeeWei fee else 0

/-- The allocation engine, `processNfts(nfts, totalCreditUsed)` (source
lines 817-861).  The `forEach` mutation loop is embedded as structural
recursion over the list; at each item the source recomputes
`totalCreditUsedBigNumber = parseEther(totalCreditUsed.toFixed(18))`
(line 835-837) from the float state, consumes credit (lines 839-846),
and re-floats the remainder for the next iteration (lines 848-851),
which is the `creditRoundTrip` argument of the recursive call. -/
def processNfts : List Nft → ℚ → AllocationResult
  | [], _ => ⟨0, [], [], [], []⟩
  | nft :: rest, totalCreditUsed =>
    let next := processNfts rest (creditRoundTrip (remCredit nft.fee totalCreditUsed))
    ⟨toWei nft.fee + next.totalFee,
     nft.address :: next.nftAddresses,
     nft.tokenId :: next.tokenIds,
     toWei nft.fee :: next.values,
     usedCredit nft.fee totalCreditUsed :: next.creditUsed⟩

/-- Total wei by which the float round-trips of the remaining credit
inflate it over one `processNfts` run (0 whenever every remainder
re-encodes exactly as a binary64 ether value). -/
def creditInflation : List Nft → ℚ → ℤ
  | [], _ => 0
  | nft :: rest, totalCreditUsed =>
    max 0 (toWei (creditRoundTrip (remCredit nft.fee totalCreditUsed)) -
        remCredit nft.fee totalCreditUsed) +
      creditInflation rest (creditRoundTrip (remCredit nft.fee totalCreditUsed))

/-- Modelled from the spec: the allocation algorithm of design §4.3 step 3,
a pure integer greedy split of a credit budget over a fee sequence (used
as the comparison point for the refinement claims). -/
def greedySplit : List ℤ → ℤ → List ℤ
  | [], _ => []
  | f :: rest, c => if f ≤ c then f :: greedySplit rest (c - f) else c :: greedySplit rest 0

/-- Remaining budget after each step of the pure integer greedy split. -/
def greedyRemainders : List ℤ → ℤ → List ℤ
  | [], _ => []
  | f :: rest, c =>
    (if f ≤ c then c - f else 0) :: greedyRemainders rest (if f ≤ c then c - f else 0)

/-- The fields of the single-asset branch of `checkoutNFTs`
(source lines 888-904) that the allocation claims talk about: the native
value attached to the transaction
(`hexStripZeros(parseEther(nft.fee.toFixed(18)).toHexString())`, lines
891-895) and the credit argument passed to
`withdraw(address,uint256,uint256)` — which is the caller's raw
`totalCreditUsed` number pushed unchanged (`creditUsed.push(totalCreditUsed)`,
line 889). -/
structure SingleCheckout where
  value : ℤ
  creditArg : ℚ
deriving DecidableEq

/-- The single-asset branch of `checkoutNFTs` (source lines 888-904). -/
def checkoutSingle (nft : Nft) (totalCreditUsed : ℚ) : SingleCheckout :=
  { value := toWei nft.fee, creditArg := totalCreditUsed }

/-- One item of the owner's external index as `getWalletNfts` sees it
after annotation: its token id and the `getLockedTill` result (0 means
not rented).  The `price`/`value` metadata annotation is carried along
unchanged and is irrelevant to the claims, so it is not represented. -/
structure WItem where
  tokenId : ℕ
  lockedTill : ℕ
deriving DecidableEq, Repr

/-- The enumeration loop of `getWalletNfts` (source lines 647-679).
State: the 1-based running `count`, the `rentals` and `deposits` output
lists, and the 1-based indices of the items for which the annotation
block (lines 651-666: `repackageMetadata` plus the two dependent
`callWithRetry` lookups `getTokenId` and `getLockedTill`) has run — the
block runs exactly when `Math.ceil(count / 12) === page`, embedded as
`(count + 11) / 12 = page` in natural division.  The loop breaks once
`deposits.length + rentals.length === 12` (lines 675-677). -/
def walletWalkGo (page : ℕ) :
    List WItem → ℕ → List WItem → List WItem → List ℕ →
      List WItem × List WItem × List ℕ
  | [], _, rentals, deposits, ann => (rentals, deposits, ann)
  | it :: rest, count, rentals, deposits, ann =>
    if (count + 1 + 11) / 12 = page then
      let rentals1 := if it.lockedTill = 0 then rentals else rentals ++ [it]
      let deposits1 := if it.lockedTill = 0 then deposits ++ [it] else deposits
      let ann1 := ann ++ [count + 1]
      if deposits1.length + rentals1.length = 12 then (rentals1, deposits1, ann1)
      else walletWalkGo page rest (count + 1) rentals1 deposits1 ann1
    else walletWalkGo page rest (count + 1) rentals deposits ann

/-- The walk of `getWalletNfts` over a snapshot of the index for a truthy
owner: returns `(rentals, deposits, annotated indices)`. -/
def walletWalk (items : List WItem) (page : ℕ) :
    List WItem × List WItem × List ℕ :=
  walletWalkGo page items 0 [] [] []

/-- Return shape of `getWalletNfts`: the falsy-owner early return is the
array `[[], []]` (line 631), while the normal return is the object
`{ rentals, deposits }` (line 680) — two different shapes, captured as
two constructors. -/
inductive WalletNftsResult where
  | emptyPair : WalletNftsResult
  | pages (rentals deposits : List WItem) : WalletNftsResult
deriving DecidableEq

/-- `getWalletNfts(proxyWallet, page)` (source lines 630-681), with the
owner address abstracted to its truthiness. -/
def getWalletNftsRes (ownerTruthy : Bool) (items : List WItem) (page : ℕ) :
    WalletNftsResult :=
  if ownerTruthy then
    WalletNftsResult.pages (walletWalk items page).1 (walletWalk items page).2.1
  else WalletNftsResult.emptyPair

/-- One counting pass of `getTotalWalletNfts` (source lines 696-729) over
the index, where each item is its `getLockedTill` value (0 = owned,
nonzero = rented).  `failsAt attempt idx` says whether the annotation of
the item at 0-based position `idx` throws during pass number `attempt`
(modelling a rejection of `repackageMetadata`/`callWithRetry`).  The
accumulator `s = (ownedCount, rentedCount)` are the source's counters
declared OUTSIDE the retry loop (lines 691-692): a throw aborts the pass
but keeps whatever was already counted. -/
def countPass (failsAt : ℕ → ℕ → Bool) (attempt : ℕ) :
    List ℕ → ℕ → ℕ × ℕ → (ℕ × ℕ) × Bool
  | [], _, s => (s, true)
  | rentEndTime :: rest, idx, s =>
    if failsAt attempt idx then (s, false)
    else countPass failsAt attempt rest (idx + 1)
      (if rentEndTime = 0 then (s.1 + 1, s.2) else (s.1, s.2 + 1))

/-- The `while (true) { try ... catch ... }` retry loop of
`getTotalWalletNfts` (source lines 694-740): on a throw, `retryCount` is
incremented and the walk restarts; once `retryCount >= 5` the error
`"Max retry count reached"` is thrown (lines 736-738).  The fuel
argument is the number of pass attempts still allowed (5 at entry). -/
def countLoop (failsAt : ℕ → ℕ → Bool) (items : List ℕ) :
    ℕ → ℕ → ℕ × ℕ → Except String (ℕ × ℕ)
  | 0, _, _ => Except.error "Max retry count reached"
  | fuel + 1, attempt, s =>
    match countPass failsAt attempt items 0 s with
    | (s1, true) => Except.ok s1
    | (s1, false) => countLoop failsAt items fuel (attempt + 1) s1

/-- `getTotalWalletNfts(walletAddress, type)` (source lines 686-742):
falsy wallet returns 0; otherwise the retried counting walk, then
`type === "rented" ? rentedCount : ownedCount` (line 741). -/
def getTotalWalletNfts (failsAt : ℕ → ℕ → Bool) (walletTruthy : Bool)
    (items : List ℕ) (typeRented : Bool) : Except String ℕ :=
  if walletTruthy then
    (countLoop failsAt items 5 0 (0, 0)).map fun s =>
      if typeRented then s.2 else s.1
  else Except.ok 0

/-- Counts produced by one complete failure-free pass over the index. -/
def cleanPassCounts (items : List ℕ) : ℕ × ℕ :=
  (countPass (fun _ _ => false) 0 items 0 (0, 0)).1

/-- The bounded retry loop of `exponentialBackoff` (source lines
1026-1045), unrolled: `for (let i = 0; i <= maxRetries; i++)` with
`maxRetries = 5` runs the fetch up to SIX times (attempts 0..5).  A
successful attempt returns `formatEther(result || "0")`, embedded as the
exact rational `v / 10^18`; when every attempt throws, the loop falls
through to `return null` (line 1044), embedded as `none`.  `fetch i`
is the result of attempt `i` (`none` = the promise rejects). -/
def backoffLoop (fetch : ℕ → Option ℤ) : Option ℚ :=
  match fetch 0 with
  | some v => some ((v : ℚ) / 10 ^ 18)
  | none => match fetch 1 with
    | some v => some ((v : ℚ) / 10 ^ 18)
    | none => match fetch 2 with
      | some v => some ((v : ℚ) / 10 ^ 18)
      | none => match fetch 3 with
        | some v => some ((v : ℚ) / 10 ^ 18)
        | none => match fetch 4 with
          | some v => some ((v : ℚ) / 10 ^ 18)
          | none => match fetch 5 with
            | some v => some ((v : ℚ) / 10 ^ 18)
            | none => none

/-- `exponentialBackoff(fetchFn, ...params)` (source lines 1026-1045).
Every throw of the underlying fetch is swallowed by the `catch` block,
so the async function always resolves — it can never reject — which the
embedding states by always returning `Except.ok`; `Except.ok none` is
the `return null` fall-through. -/
def exponentialBackoff (fetch : ℕ → Option ℤ) : Except String (Option ℚ) :=
  Except.ok (backoffLoop fetch)

/-- Number of fetch invocations `exponentialBackoff` performs. -/
def attemptsMade (fetch : ℕ → Option ℤ) : ℕ :=
  match fetch 0 with
  | some _ => 1
  | none => match fetch 1 with
    | some _ => 2
    | none => match fetch 2 with
      | some _ => 3
      | none => match fetch 3 with
        | some _ => 4
        | none => match fetch 4 with
          | some _ => 5
          | none => 6

/-- Concrete input: an NFT whose fee is the number `1e-18` (one wei). -/
def nftSub : Nft := ⟨"a", 1, oneE18⟩

/-- Concrete input: an NFT whose fee is the number `1` (one ether). -/
def nftOne : Nft := ⟨"b", 2, 1⟩

/-- Concrete input: an NFT whose fee is the number `2` (two ether). -/
def nftTwo : Nft := ⟨"c", 3, 2⟩

/-- Concrete input: fees of 3, 5 and 2 wei (the numbers `3e-18`, `5e-18`,
`2e-18`). -/
def nfts352 : List Nft := [⟨"a", 1, dWei 3⟩, ⟨"b", 2, dWei 5⟩, ⟨"c", 3, dWei 2⟩]

/-- Concrete input: a credit balance of 6 wei (the number `6e-18`). -/
def cr6 : ℚ := dWei 6

/-- Concrete input: a 25-item index alternating locked/available —
item `k` (1-based) is locked until time `k` when `k` is odd, available
when `k` is even. -/
def items25 : List WItem :=
  (List.range 25).map fun j => ⟨j + 1, if (j + 1) % 2 = 1 then j + 1 else 0⟩

/-- Concrete failure schedule: the 10th item's annotation (0-based index
9) throws on the first two passes and succeeds afterwards. -/
def failTwice : ℕ → ℕ → Bool :=
  fun attempt idx => idx == 9 && (attempt == 0 || attempt == 1)

/-- Concrete fetch: every attempt rejects. -/
def allFail : ℕ → Option ℤ := fun _ => none

/-- Concrete fetch: attempts 0-3 reject, attempt 4 (the 5th) resolves. -/
def fifthTry : ℕ → Option ℤ := fun i => if i = 4 then some (10 ^ 18) else none

/-- Concrete fetch: attempts 0-4 reject, attempt 5 (the 6th) resolves. -/
def sixthTry : ℕ → Option ℤ := fun i => if i = 5 then some 7 else none

/-- Concrete input: an NFT with fee `0` (below the smallest unit). -/
def nftW : Nft := ⟨"w", 7, 0⟩

/-- Rounding to the nearest integer never takes a non-negative rational
below zero. -/
theorem roundTiesEven_nonneg (q : ℚ) (h : 0 ≤ q) : 0 ≤ roundTiesEven q := by
  have hf : (0 : ℤ) ≤ ⌊q⌋ := Int.floor_nonneg.mpr h
  unfold roundTiesEven
  dsimp only
  split
  · exact hf
  · split
    · omega
    · split <;> omega

/-- Round-to-binary64 never produces a negative value. -/
theorem roundToDouble_nonneg (q : ℚ) : 0 ≤ roundToDouble q := by
  unfold roundToDouble
  split
  · exact le_refl 0
  · rename_i hq
    have hqpos : (0 : ℚ) < q := lt_of_not_ge hq
    have h2 : (0 : ℚ) < 2 ^ (qlog2 q - 52) := by positivity
    have hr : 0 ≤ roundTiesEven (q / 2 ^ (qlog2 q - 52)) :=
      roundTiesEven_nonneg _ (by positivity)
    exact mul_nonneg (by exact_mod_cast hr) h2.le

/-- The wei conversion of a non-negative number is non-negative. -/
theorem toWei_nonneg (x : ℚ) (h : 0 ≤ x) : 0 ≤ toWei x := by
  unfold toWei
  have : (0 : ℚ) ≤ x * 10 ^ 18 + 1 / 2 := by positivity
  exact Int.floor_nonneg.mpr this

/-- The wei conversion of the number `0` is `0`. -/
theorem toWei_zero : toWei 0 = 0 := by with_unfolding_all decide

/-- The credit-eligible fee is never negative. -/
theorem eligibleFeeWei_nonneg (fee : ℚ) : 0 ≤ eligibleFeeWei fee := by
  unfold eligibleFeeWei
  split
  · exact le_refl 0
  · rename_i hge
    have h1 : (0 : ℚ) ≤ oneE18 := roundToDouble_nonneg _
    exact toWei_nonneg fee (h1.trans (le_of_not_lt hge))

/-- The remaining-credit `BigNumber` after one item is never negative. -/
theorem remCredit_nonneg (fee tcu : ℚ) : 0 ≤ remCredit fee tcu := by
  unfold remCredit
  split <;> omega

/-- Consumed plus remaining credit equals the credit the iteration
started from. -/
theorem usedCredit_add_remCredit (fee tcu : ℚ) :
    usedCredit fee tcu + remCredit fee tcu = toWei tcu := by
  unfold usedCredit remCredit
  split <;> omega

/-- The credit consumed on one item is the minimum of the remaining
credit and the item's eligible fee. -/
theorem usedCredit_eq_min (fee tcu : ℚ) :
    usedCredit fee tcu = min (toWei tcu) (eligibleFeeWei fee) := by
  unfold usedCredit
  rcases le_or_lt (eligibleFeeWei fee) (toWei tcu) with h | h
  · rw [if_pos h, min_eq_right h]
  · rw [if_neg (not_le.mpr h), min_eq_left h.le]

/-- With a sub-unit fee and non-negative remaining credit, the consumed
credit is zero. -/
theorem usedCredit_subunit (fee tcu : ℚ) (hf : fee < oneE18)
    (hc : 0 ≤ toWei tcu) : usedCredit fee tcu = 0 := by
  unfold usedCredit
  rw [show eligibleFeeWei fee = 0 from if_pos hf, if_pos hc]

/-- The per-item consumed credit at zero float credit is zero. -/
theorem usedCredit_zero (fee : ℚ) : usedCredit fee 0 = 0 := by
  have h := eligibleFeeWei_nonneg fee
  unfold usedCredit
  rw [toWei_zero]
  split <;> omega

/-- The remaining credit at zero float credit is zero. -/
theorem remCredit_zero (fee : ℚ) : remCredit fee 0 = 0 := by
  have h := eligibleFeeWei_nonneg fee
  unfold remCredit
  rw [toWei_zero]
  split <;> omega

/-- The float round-trip of a zero remainder is exactly zero. -/
theorem creditRoundTrip_zero : creditRoundTrip 0 = 0 := by
  norm_num [creditRoundTrip, roundToDouble]

/-- The `values` sequence is the full per-asset fee in wei, whatever the
credit is. -/
theorem pn_values (l : List Nft) (c : ℚ) :
    (processNfts l c).values = l.map fun n => toWei n.fee := by
  induction l generalizing c with
  | nil => rfl
  | cons nft rest ih => simp [processNfts, ih]

/-- The `nftAddresses` sequence lists every input asset in order. -/
theorem pn_addresses (l : List Nft) (c : ℚ) :
    (processNfts l c).nftAddresses = l.map fun n => n.address := by
  induction l generalizing c with
  | nil => rfl
  | cons nft rest ih => simp [processNfts, ih]

/-- The `tokenIds` sequence lists every input asset in order. -/
theorem pn_tokenIds (l : List Nft) (c : ℚ) :
    (processNfts l c).tokenIds = l.map fun n => n.tokenId := by
  induction l generalizing c with
  | nil => rfl
  | cons nft rest ih => simp [processNfts, ih]

/-- `totalFee` is the exact integer sum of the per-asset fees in wei. -/
theorem pn_totalFee (l : List Nft) (c : ℚ) :
    (processNfts l c).totalFee = (l.map fun n => toWei n.fee).sum := by
  induction l generalizing c with
  | nil => rfl
  | cons nft rest ih => simp [processNfts, ih]

/-- One credit entry is produced per input asset. -/
theorem pn_creditUsed_length (l : List Nft) (c : ℚ) :
    (processNfts l c).creditUsed.length = l.length := by
  induction l generalizing c with
  | nil => rfl
  | cons nft rest ih => simp [processNfts, ih]

/-- Budget bound: the consumed credit never exceeds the starting credit
in wei plus the total inflation the float round-trips of the remainder
introduce. -/
theorem pn_budget (l : List Nft) (c : ℚ) (hc : 0 ≤ c) :
    (processNfts l c).creditUsed.sum ≤ toWei c + creditInflation l c := by
  induction l generalizing c with
  | nil =>
    simpa [processNfts, creditInflation] using toWei_nonneg c hc
  | cons nft rest ih =>
    simp only [processNfts, creditInflation, List.sum_cons]
    have hIH := ih (creditRoundTrip (remCredit nft.fee c)) (roundToDouble_nonneg _)
    have hsplit := usedCredit_add_remCredit nft.fee c
    have hmax :
        toWei (creditRoundTrip (remCredit nft.fee c)) - remCredit nft.fee c ≤
          max 0 (toWei (creditRoundTrip (remCredit nft.fee c)) -
            remCredit nft.fee c) := le_max_right _ _
    omega

/-- With credit `0`, every asset receives zero credit. -/
theorem pn_zero_credit (l : List Nft) :
    (processNfts l 0).creditUsed = List.replicate l.length 0 := by
  induction l with
  | nil => rfl
  | cons nft rest ih =>
    simp [processNfts, usedCredit_zero, remCredit_zero, creditRoundTrip_zero,
      ih, List.replicate_succ]

/-- Refinement: whenever every intermediate remainder survives the float
round-trip exactly, the engine's credit sequence is exactly the pure
integer greedy split of the wei credit over the eligible wei fees. -/
theorem pn_refine (l : List Nft) : ∀ c : ℚ,
    (∀ r ∈ greedyRemainders (l.map fun n => eligibleFeeWei n.fee) (toWei c),
      toWei (creditRoundTrip r) = r) →
    (processNfts l c).creditUsed =
      greedySplit (l.map fun n => eligibleFeeWei n.fee) (toWei c) := by
  induction l with
  | nil => intro c _; rfl
  | cons nft rest ih =>
    intro c h
    have hmem : remCredit nft.fee c ∈
        greedyRemainders ((nft :: rest).map fun n => eligibleFeeWei n.fee)
          (toWei c) := by
      simp only [List.map_cons, greedyRemainders, remCredit]
      exact List.mem_cons_self _ _
    have h1 : toWei (creditRoundTrip (remCredit nft.fee c)) =
        remCredit nft.fee c := h _ hmem
    have htail : ∀ r ∈ greedyRemainders (rest.map fun n => eligibleFeeWei n.fee)
        (toWei (creditRoundTrip (remCredit nft.fee c))),
        toWei (creditRoundTrip r) = r := by
      intro r hr
      rw [h1] at hr
      apply h
      simp only [List.map_cons, greedyRemainders, remCredit]
      exact List.mem_cons_of_mem _ hr
    have hrec := ih (creditRoundTrip (remCredit nft.fee c)) htail
    rw [h1] at hrec
    show usedCredit nft.fee c ::
        (processNfts rest (creditRoundTrip (remCredit nft.fee c))).creditUsed = _
    simp only [List.map_cons, greedySplit]
    by_cases hc2 : eligibleFeeWei nft.fee ≤ toWei c
    · rw [if_pos hc2, show usedCredit nft.fee c = eligibleFeeWei nft.fee from
        if_pos hc2, hrec, show remCredit nft.fee c = toWei c - eligibleFeeWei nft.fee
          from if_pos hc2]
    · rw [if_neg hc2, show usedCredit nft.fee c = toWei c from if_neg hc2, hrec,
        show remCredit nft.fee c = 0 from if_neg hc2]

/-- A sub-unit-fee asset at any position receives exactly zero credit
when the supplied credit balance is non-negative. -/
theorem pn_subunit (pre : List Nft) : ∀ (post : List Nft) (nft : Nft) (c : ℚ),
    0 ≤ c → nft.fee < oneE18 →
    (processNfts (pre ++ nft :: post) c).creditUsed[pre.length]? = some 0 := by
  induction pre with
  | nil =>
    intro post nft c hc hf
    simp only [List.nil_append, processNfts, List.length_nil,
      List.getElem?_cons_zero, usedCredit_subunit nft.fee c hf (toWei_nonneg c hc)]
  | cons p pre ih =>
    intro post nft c _ hf
    simp only [List.cons_append, processNfts, List.length_cons,
      List.getElem?_cons_succ]
    exact ih post nft (creditRoundTrip (remCredit p.fee c))
      (roundToDouble_nonneg _) hf

/-- Element lookup at the junction of an append. -/
theorem getElem?_append_len {α : Type} (l : List α) (x : α) (t : List α) :
    (l ++ x :: t)[l.length]? = some x := by
  induction l with
  | nil => simp
  | cons a l ih => simpa using ih

/-- Every index the enumeration loop annotates lies on the requested
page, whatever accumulator it starts from. -/
theorem walletWalkGo_ann_page (page : ℕ) (items : List WItem) :
    ∀ (count : ℕ) (rentals deposits : List WItem) (ann : List ℕ),
    ann.all (fun c => (c + 11) / 12 == page) = true →
    ((walletWalkGo page items count rentals deposits ann).2.2).all
      (fun c => (c + 11) / 12 == page) = true := by
  induction items with
  | nil => intro count r d ann h; exact h
  | cons it rest ih =>
    intro count r d ann h
    simp only [walletWalkGo]
    by_cases hp : (count + 1 + 11) / 12 = page
    · rw [if_pos hp]
      by_cases hl : it.lockedTill = 0
      · rw [if_pos hl, if_pos hl]
        by_cases hfull : (d ++ [it]).length + r.length = 12
        · rw [if_pos hfull]
          simp [List.all_append, h, hp]
        · rw [if_neg hfull]
          exact ih _ _ _ _ (by simp [List.all_append, h, hp])
      · rw [if_neg hl, if_neg hl]
        by_cases hfull : d.length + (r ++ [it]).length = 12
        · rw [if_pos hfull]
          simp [List.all_append, h, hp]
        · rw [if_neg hfull]
          exact ih _ _ _ _ (by simp [List.all_append, h, hp])
    · rw [if_neg hp]
      exact ih _ _ _ _ h

/-- Every index `getWalletNfts` annotates lies on the requested page. -/
theorem walletWalk_ann_page (items : List WItem) (page : ℕ) :
    ((walletWalk items page).2.2).all (fun c => (c + 11) / 12 == page) = true :=
  walletWalkGo_ann_page page items 0 [] [] [] rfl

/-- Element lookup of a mapped append at the junction. -/
theorem getElem?_map_append {α β : Type} (f : α → β) (l : List α) (x : α)
    (t : List α) : ((l ++ x :: t).map f)[l.length]? = some (f x) := by
  induction l with
  | nil => simp
  | cons a l ih => simpa using ih

set_option maxRecDepth 40000 in
/-- C1 counterexample: with assets of 1 wei and 1 ether and a credit
balance of 1 ether (all non-negative), the claimed identity
`feeBeforeCredit[1] = feeAfterCredit[1] + creditConsumed[1]` fails
(the reported value is the full fee while the asset also consumes its
full fee from credit), and `sum(creditConsumed) = 10^18 + 1` exceeds the
available credit `10^18` — the float round-trip of the remainder
`10^18 - 1` wei comes back as `10^18`. -/
theorem C1_allocation_invariant_cex :
    ¬ (toWei nftOne.fee =
        (processNfts [nftSub, nftOne] 1).values[1]?.getD 0 +
          (processNfts [nftSub, nftOne] 1).creditUsed[1]?.getD 0) ∧
    ¬ ((processNfts [nftSub, nftOne] 1).creditUsed.sum ≤ toWei 1) := by
  with_unfolding_all decide

/-- C1 (amended): for every asset list and non-negative credit,
`feeAfterCredit[i]` equals the full fee `feeBeforeCredit[i]` for every i,
and `sum(creditConsumed)` is bounded by the available credit in wei plus
the cumulative inflation the per-iteration float round-trips of the
remaining credit introduce (zero whenever every remainder re-encodes
exactly). -/
theorem C1_allocation_invariant_amended (l : List Nft) (c : ℚ) (hc : 0 ≤ c) :
    (processNfts l c).values = l.map (fun n => toWei n.fee) ∧
    (processNfts l c).creditUsed.sum ≤ toWei c + creditInflation l c :=
  ⟨pn_values l c, pn_budget l c hc⟩

/-- C1 witness: the amended statement at a one-ether asset and one-ether
credit. -/
theorem C1_allocation_invariant_witness :
    (0 : ℚ) ≤ 1 ∧
    ((processNfts [nftOne] 1).values = [nftOne].map (fun n => toWei n.fee) ∧
     (processNfts [nftOne] 1).creditUsed.sum ≤
       toWei 1 + creditInflation [nftOne] 1) :=
  ⟨by norm_num, C1_allocation_invariant_amended [nftOne] 1 (by norm_num)⟩

/-- C2: code-bug demonstration.  On a 10-item all-available index whose
10th item's annotation throws on the first two passes and succeeds on the
third, `getTotalWalletNfts` returns 28 — the counters live outside the
retry loop and are never reset, so items 1-9 are counted on every pass —
while one complete successful pass over the index counts 10. -/
theorem C2_count_retry_accumulates :
    getTotalWalletNfts failTwice true (List.replicate 10 0) false =
      Except.ok 28 ∧
    cleanPassCounts (List.replicate 10 0) = (10, 0) := by
  constructor <;> rfl

set_option maxRecDepth 40000 in
/-- C3 counterexample: on assets of 1 wei and 1 ether with credit
1 ether, the engine's credit sequence differs from the pure integer
greedy split of the same wei quantities, because the remainder
`10^18 - 1` wei does not survive the `parseFloat(formatEther(...))`
round-trip — the round-trip is lossy and feeds back into the
arithmetic. -/
theorem C3_integer_arithmetic_cex :
    (processNfts [nftSub, nftOne] 1).creditUsed ≠
      greedySplit ([nftSub, nftOne].map fun n => eligibleFeeWei n.fee)
        (toWei 1) ∧
    toWei (creditRoundTrip (10 ^ 18 - 1)) ≠ 10 ^ 18 - 1 := by
  with_unfolding_all decide

/-- C3 (amended): the fee conversions are per-asset and integer-exact,
but the running credit is re-floated between iterations; whenever every
intermediate remainder survives that binary64 round-trip exactly, the
engine computes exactly the pure integer greedy allocation over the wei
values. -/
theorem C3_integer_arithmetic_amended (l : List Nft) (c : ℚ)
    (h : ∀ r ∈ greedyRemainders (l.map fun n => eligibleFeeWei n.fee) (toWei c),
      toWei (creditRoundTrip r) = r) :
    (processNfts l c).creditUsed =
      greedySplit (l.map fun n => eligibleFeeWei n.fee) (toWei c) :=
  pn_refine l c h

set_option maxRecDepth 40000 in
/-- C3 witness: the amended statement for fees of 3, 5, 2 wei and credit
6 wei, where every remainder (3 wei, then 0) round-trips exactly. -/
theorem C3_integer_arithmetic_witness :
    (processNfts nfts352 cr6).creditUsed =
      greedySplit (nfts352.map fun n => eligibleFeeWei n.fee) (toWei cr6) :=
  C3_integer_arithmetic_amended nfts352 cr6 (by with_unfolding_all decide)

/-- C4 counterexample: with the 25-item alternating index and page 2, the
annotation block runs exactly for items 13-24; in particular item 1 is
never annotated, contradicting the claim that every item up to the page
boundary (items 1-24) is annotated. -/
theorem C4_annotation_scope_cex :
    (walletWalk items25 2).2.2 =
      [13, 14, 15, 16, 17, 18, 19, 20, 21, 22, 23, 24] ∧
    1 ∉ (walletWalk items25 2).2.2 := by
  constructor
  · rfl
  · decide

/-- C4 (amended): the two dependent annotation lookups run exactly once,
in index order, precisely for the items whose 1-indexed page
`ceil(count/12)` equals the requested page (earlier items are counted but
not annotated), only those items are added to the output, and the walk
stops once the page holds 12 items; concretely, the 25-item alternating
index at page 2 yields exactly items 13-24, correctly classified, with
items 13-24 and no others annotated. -/
theorem C4_annotation_scope_amended (items : List WItem) (page : ℕ) :
    ((walletWalk items page).2.2).all (fun c => (c + 11) / 12 == page) = true ∧
    walletWalk items25 2 =
      ([⟨13, 13⟩, ⟨15, 15⟩, ⟨17, 17⟩, ⟨19, 19⟩, ⟨21, 21⟩, ⟨23, 23⟩],
       [⟨14, 0⟩, ⟨16, 0⟩, ⟨18, 0⟩, ⟨20, 0⟩, ⟨22, 0⟩, ⟨24, 0⟩],
       [13, 14, 15, 16, 17, 18, 19, 20, 21, 22, 23, 24]) :=
  ⟨walletWalk_ann_page items page, by decide⟩

/-- C5: `feeAfterCredit[i]` (the `values` entry attached per asset) is
the asset's full fee in wei for every index, whatever the credit is, and
`totalFee` is the exact integer sum of the per-asset fees, independent of
the credit balance. -/
theorem C5_full_fee_totalFee (l : List Nft) (c cPrime : ℚ) :
    (processNfts l c).values = l.map (fun n => toWei n.fee) ∧
    (processNfts l c).totalFee = (l.map fun n => toWei n.fee).sum ∧
    (processNfts l c).totalFee = (processNfts l cPrime).totalFee :=
  ⟨pn_values l c, pn_totalFee l c, by rw [pn_totalFee, pn_totalFee]⟩

set_option maxRecDepth 40000 in
/-- C6 counterexample: with assets of 1 wei and 2 ether and credit
2 ether, the engine yields creditUsed `[1, 2*10^18]` while the claimed
rule (remaining credit decreases exactly by the consumed fee) yields
`[1, 2*10^18 - 1]` — the re-floated remainder `2*10^18 - 1` wei comes
back as `2*10^18`. -/
theorem C6_greedy_cex :
    (processNfts [nftSub, nftTwo] 2).creditUsed = [1, 2 * 10 ^ 18] ∧
    greedySplit [eligibleFeeWei nftSub.fee, eligibleFeeWei nftTwo.fee]
      (toWei 2) = [1, 2 * 10 ^ 18 - 1] ∧
    ([1, 2 * 10 ^ 18] : List ℤ) ≠ [1, 2 * 10 ^ 18 - 1] := by
  with_unfolding_all decide

set_option maxRecDepth 40000 in
/-- C6 (amended): per asset the engine consumes
`min(remaining credit, eligible wei fee)`; with credit 0 every asset
receives zero credit (and once the remainder reaches zero the loop keeps
it at zero); and for fees `[3,5,2]` wei with credit 6 wei — where every
remainder survives the float round-trip — the result is creditUsed
`[3,3,0]` with totalFee 10. -/
theorem C6_greedy_amended :
    (∀ (nft : Nft) (rest : List Nft) (c : ℚ),
      ((processNfts (nft :: rest) c).creditUsed)[0]? =
        some (min (toWei c) (eligibleFeeWei nft.fee))) ∧
    (∀ l : List Nft, (processNfts l 0).creditUsed = List.replicate l.length 0) ∧
    (processNfts nfts352 cr6).creditUsed = [3, 3, 0] ∧
    (processNfts nfts352 cr6).totalFee = 10 := by
  refine ⟨?_, pn_zero_credit, ?_, ?_⟩
  · intro nft rest c
    simp [processNfts, usedCredit_eq_min]
  · with_unfolding_all decide
  · with_unfolding_all decide

/-- C7 counterexample: a call failing on every attempt resolves to null
(`Except.ok none`, not a `MaxRetriesExceeded` rejection) after SIX fetch
invocations, and a call failing five times then succeeding on the 6th
attempt returns that success value — so a 6th attempt is made. -/
theorem C7_backoff_cex :
    exponentialBackoff allFail = Except.ok none ∧
    attemptsMade allFail = 6 ∧
    backoffLoop sixthTry = some (((7 : ℤ) : ℚ) / 10 ^ 18) :=
  ⟨rfl, rfl, rfl⟩

/-- C7 (amended): a call failing 4 times then succeeding on the 5th
attempt returns the (ether-formatted) success value; the loop makes up to
6 attempts (`maxRetries = 5` bounds the retries after the first attempt),
and a call failing on all of them resolves to null rather than rejecting
with `MaxRetriesExceeded`. -/
theorem C7_backoff_amended (f g : ℕ → Option ℤ) (v : ℤ)
    (hf : ∀ i, i < 4 → f i = none) (h5 : f 4 = some v)
    (hg : ∀ i, i ≤ 5 → g i = none) :
    exponentialBackoff f = Except.ok (some ((v : ℚ) / 10 ^ 18)) ∧
    exponentialBackoff g = Except.ok none ∧
    attemptsMade g = 6 := by
  refine ⟨?_, ?_, ?_⟩ <;>
    simp [exponentialBackoff, backoffLoop, attemptsMade,
      hf 0 (by omega), hf 1 (by omega), hf 2 (by omega), hf 3 (by omega), h5,
      hg 0 (by omega), hg 1 (by omega), hg 2 (by omega), hg 3 (by omega),
      hg 4 (by omega), hg 5 (by omega)]

/-- C7 witness: the amended statement for a fetch succeeding on the 5th
attempt with one ether, against the always-failing fetch. -/
theorem C7_backoff_witness :
    exponentialBackoff fifthTry =
      Except.ok (some (((10 ^ 18 : ℤ) : ℚ) / 10 ^ 18)) ∧
    exponentialBackoff allFail = Except.ok none ∧
    attemptsMade allFail = 6 :=
  C7_backoff_amended fifthTry allFail (10 ^ 18)
    (fun i hi => by unfold fifthTry; rw [if_neg (by omega)])
    (by unfold fifthTry; rw [if_pos rfl])
    (fun i _ => rfl)

set_option maxRecDepth 40000 in
/-- C8 counterexample: for a one-ether asset with credit 2, the
single-asset branch passes the raw number 2 as the credit argument while
`processNfts` on the one-element input computes `10^18` wei (the clamped
fee), and the raw entry even exceeds the asset's fee in ether units — the
two paths are not behaviorally identical. -/
theorem C8_single_path_cex :
    (checkoutSingle nftOne 2).creditArg ≠
      (((processNfts [nftOne] 2).creditUsed[0]?.getD 0 : ℤ) : ℚ) ∧
    nftOne.fee < (checkoutSingle nftOne 2).creditArg := by
  with_unfolding_all decide

/-- C8 (amended): the single-asset branch attaches the same per-asset
value (the full fee in wei) as `processNfts` on the one-element input,
but its creditUsed entry is the caller's raw `totalCreditUsed` number
passed through unconverted and unclamped. -/
theorem C8_single_path_amended (nft : Nft) (c : ℚ) :
    (processNfts [nft] c).values = [(checkoutSingle nft c).value] ∧
    (checkoutSingle nft c).creditArg = c :=
  ⟨by simp [pn_values, checkoutSingle], rfl⟩

/-- C9: an asset whose fee lies below the smallest representable unit
(the code threshold `1e-18`) consumes exactly zero credit when the credit
balance is non-negative, yet still appears at its index in all four
output sequences. -/
theorem C9_subunit_fee (pre post : List Nft) (nft : Nft) (c : ℚ)
    (hc : 0 ≤ c) (hf : nft.fee < oneE18) :
    (processNfts (pre ++ nft :: post) c).creditUsed[pre.length]? = some 0 ∧
    (processNfts (pre ++ nft :: post) c).nftAddresses[pre.length]? =
      some nft.address ∧
    (processNfts (pre ++ nft :: post) c).tokenIds[pre.length]? =
      some nft.tokenId ∧
    (processNfts (pre ++ nft :: post) c).values[pre.length]? =
      some (toWei nft.fee) := by
  refine ⟨pn_subunit pre post nft c hc hf, ?_, ?_, ?_⟩
  · rw [pn_addresses]
    exact getElem?_map_append _ pre nft post
  · rw [pn_tokenIds]
    exact getElem?_map_append _ pre nft post
  · rw [pn_values]
    exact getElem?_map_append _ pre nft post

set_option maxRecDepth 40000 in
/-- C9 witness: the statement at a zero-fee asset with credit one. -/
theorem C9_subunit_fee_witness :
    (0 : ℚ) ≤ 1 ∧ nftW.fee < oneE18 ∧
    ((processNfts [nftW] 1).creditUsed[0]? = some 0 ∧
     (processNfts [nftW] 1).nftAddresses[0]? = some nftW.address ∧
     (processNfts [nftW] 1).tokenIds[0]? = some nftW.tokenId ∧
     (processNfts [nftW] 1).values[0]? = some (toWei nftW.fee)) :=
  ⟨by norm_num, by with_unfolding_all decide,
   C9_subunit_fee [] [] nftW 1 (by norm_num) (by with_unfolding_all decide)⟩

/-- C10: a falsy owner makes `getWalletNfts` return the array
`[[], []]` while a truthy owner returns the `{ rentals, deposits }`
object — two different shapes, so destructuring the falsy-owner result
as an object cannot see the lists. -/
theorem C10_falsy_owner_shape (items : List WItem) (page : ℕ) :
    getWalletNftsRes false items page = WalletNftsResult.emptyPair ∧
    getWalletNftsRes true items page =
      WalletNftsResult.pages (walletWalk items page).1
        (walletWalk items page).2.1 ∧
    getWalletNftsRes false items page ≠ getWalletNftsRes true items page := by
  refine ⟨rfl, rfl, fun h => ?_⟩
  rw [show getWalletNftsRes false items page = WalletNftsResult.emptyPair
    from rfl, show getWalletNftsRes true items page =
      WalletNftsResult.pages (walletWalk items page).1
        (walletWalk items page).2.1 from rfl] at h
  exact WalletNftsResult.noConfusion h
